import Mathlib

/-!
Verification of the Job Queue / Task Scheduler subsystem
(src/real-world/job-queue/main.cpp) against its specification.

The C++ code is shallowly embedded: machine state (queues, the pool's
FIFO) becomes explicit record state, callables and shared cancellation
cells become numeric identifiers resolved through an explicit flag
environment, and `std::chrono` instants become integers (milliseconds).
Lock usage is embedded as explicit acquire/release event traces.
-/

namespace JobQueueSpec

/-- `enum class Priority : std::uint8_t { Low = 0, Medium = 1, High = 2 }`. -/
inductive Priority
  | Low
  | Medium
  | High
deriving DecidableEq

/-- The underlying integral value of a `Priority`, as in the C++ enum. -/
def Priority.toNat : Priority → Nat
  | .Low => 0
  | .Medium => 1
  | .High => 2

/-- `struct Task`: the internal task representation.  `func` is an identifier
standing for the captured callable, `cancelled` an identifier for the
shared cancellation cell (`std::shared_ptr<std::atomic<bool>>`), and
times/durations are integers (milliseconds on the steady clock). -/
structure Task where
  func : Nat
  priority : Priority
  scheduled_time : Int
  recurring_interval : Int
  is_recurring : Bool
  cancelled : Nat
deriving DecidableEq

/-- `Task::is_cancelled()`: reads the shared flag cell, resolved through the
flag environment `flags`. -/
def Task.is_cancelled (flags : Nat → Bool) (t : Task) : Bool :=
  flags t.cancelled

/-- `Task::is_ready()`: `clock_type::now() >= scheduled_time`. -/
def Task.is_ready (now : Int) (t : Task) : Bool :=
  decide (now ≥ t.scheduled_time)

/-- `struct TaskComparator`: the strict comparison handed to both
`std::priority_queue`s.  Mirrors the source exactly: if priorities differ,
order by priority value ascending (so the max element has the highest
priority); otherwise by `scheduled_time` descending (so the max element
has the earliest time). -/
def TaskComparator (a b : Task) : Bool :=
  if a.priority.toNat ≠ b.priority.toNat then
    decide (a.priority.toNat < b.priority.toNat)
  else
    decide (a.scheduled_time > b.scheduled_time)

/-- Extract the maximum element (w.r.t. `TaskComparator`) from `best :: l`,
returning it together with the remaining elements.  This models
`priority_queue::top()`/`pop()`: the C++ heap pops a maximal element under
the comparator; ties between equivalent elements are popped in an
unspecified order there, and here the first maximal element wins. -/
def selectMax (best : Task) : List Task → Task × List Task
  | [] => (best, [])
  | t :: rest =>
    if TaskComparator best t then
      ((selectMax t rest).1, best :: (selectMax t rest).2)
    else
      ((selectMax best rest).1, t :: (selectMax best rest).2)

/-- `top()`+`pop()` on a (possibly empty) priority queue represented by the
multiset of its elements. -/
def extractTop : List Task → Option (Task × List Task)
  | [] => none
  | t :: rest => some (selectMax t rest)

/-- The single-threaded view of a `JobQueue`'s mutable state: the two
priority queues (represented by the multiset of their elements) and the
`ThreadPool`'s FIFO.  `fifo` records, in FIFO order, the tasks whose
wrapped bodies have been handed to `ThreadPool::enqueue`. -/
structure JQState where
  ready : List Task
  sched : List Task
  fifo : List Task
deriving DecidableEq

/-- One pass of the `while (!ready_queue_.empty())` loop body sequence in
`JobQueue::process_ready_queue`, with `fuel` bounding the iteration count:
pop the top task, skip it if cancelled, otherwise hand it to the pool.
Returns the dispatched tasks in dispatch order. -/
def drainAux (flags : Nat → Bool) : Nat → List Task → List Task
  | 0, _ => []
  | fuel + 1, q =>
    match extractTop q with
    | none => []
    | some (t, rest) =>
      if t.is_cancelled flags then drainAux flags fuel rest
      else t :: drainAux flags fuel rest

/-- `JobQueue::process_ready_queue`: drain the ready queue completely,
dispatching every non-cancelled task to the pool in pop order. -/
def process_ready_queue (flags : Nat → Bool) (q : List Task) : List Task :=
  drainAux flags q.length q

/-- `JobQueue::add_to_ready_queue`: push under the ready lock, then run
`process_ready_queue` (which drains the ready queue into the pool FIFO). -/
def add_to_ready_queue (flags : Nat → Bool) (t : Task) (s : JQState) : JQState :=
  { s with
    ready := []
    fifo := s.fifo ++ process_ready_queue flags (t :: s.ready) }

/-- `JobQueue::add_to_scheduled_queue`: push under the scheduled lock and
signal the scheduler condition variable. -/
def add_to_scheduled_queue (t : Task) (s : JQState) : JQState :=
  { s with sched := t :: s.sched }

/-- `JobQueue::submit(func, priority)`: build a task with
`scheduled_time = now()`, zero recurring interval, non-recurring, sharing
the fresh handle's cancellation cell `flagId`, then `add_to_ready_queue`. -/
def submit (flags : Nat → Bool) (now : Int) (f : Nat) (p : Priority)
    (flagId : Nat) (s : JQState) : JQState :=
  add_to_ready_queue flags ⟨f, p, now, 0, false, flagId⟩ s

/-- `JobQueue::submit_delayed(delay, func, priority)`: build a task with
`scheduled_time = now() + delay`, non-recurring, and push it into the
scheduled queue.  The source performs no validation of `delay`. -/
def submit_delayed (now delay : Int) (f : Nat) (p : Priority)
    (flagId : Nat) (s : JQState) : JQState :=
  add_to_scheduled_queue ⟨f, p, now + delay, 0, false, flagId⟩ s

/-- `JobQueue::submit_recurring(interval, func, priority)`: build a task with
`scheduled_time = now() + interval`, recurring with `recurring_interval =
interval`, and push it into the scheduled queue.  The source performs no
validation of `interval`. -/
def submit_recurring (now interval : Int) (f : Nat) (p : Priority)
    (flagId : Nat) (s : JQState) : JQState :=
  add_to_scheduled_queue ⟨f, p, now + interval, interval, true, flagId⟩ s

/-- The promotion loop of `JobQueue::scheduler_loop`:
`while (!scheduled_queue_.empty() && scheduled_queue_.top()->is_ready())`
pop the top and collect it unless cancelled.  Returns the promoted tasks
in pop order paired with the remaining scheduled queue. -/
def promoteAux (flags : Nat → Bool) (now : Int) :
    Nat → List Task → List Task × List Task
  | 0, q => ([], q)
  | fuel + 1, q =>
    match extractTop q with
    | none => ([], q)
    | some (t, rest) =>
      if t.is_ready now then
        if t.is_cancelled flags then promoteAux flags now fuel rest
        else
          ((promoteAux flags now fuel rest).1.cons t,
            (promoteAux flags now fuel rest).2)
      else ([], q)

/-- One wake of the scheduler: pop every ready top of the scheduled queue,
discarding cancelled tasks. -/
def promote_due (flags : Nat → Bool) (now : Int) (q : List Task) :
    List Task × List Task :=
  promoteAux flags now q.length q

/-- Outcome of running a task body on a worker. -/
inductive BodyOutcome
  | ok
  | raises
deriving DecidableEq

/-- The next occurrence built by the recurring wrapper:
`make_shared<Task>(task->func, task->priority, now() + task->recurring_interval,
task->recurring_interval, true, task->cancelled)`. -/
def nextTask (now : Int) (t : Task) : Task :=
  ⟨t.func, t.priority, now + t.recurring_interval, t.recurring_interval,
    true, t.cancelled⟩

/-- The lambda enqueued for a non-recurring task: re-read the shared flag
and run the body only if it is still clear.  Returns whether the body ran,
given the flag value at invocation time. -/
def nonRecurringWrapperRuns (flagAtRun : Bool) : Bool :=
  !flagAtRun

/-- The lambda enqueued for a recurring task: if the flag is clear, run the
body; afterwards, if the body completed normally and the flag is still
clear, construct `nextTask` and `add_to_scheduled_queue` it.  Returns
(whether the body was invoked, resulting state). -/
def recurringWrapper (now : Int) (t : Task) (flagAtStart : Bool)
    (body : BodyOutcome) (flagAfter : Bool) (s : JQState) : Bool × JQState :=
  if flagAtStart then (false, s)
  else
    match body with
    | .raises => (true, s)
    | .ok =>
      if flagAfter then (true, s)
      else (true, add_to_scheduled_queue (nextTask now t) s)

/-- Whether a ready-queue task is handed to the pool, given the flag value
read when it is popped in `process_ready_queue`. -/
def dispatchedFromReady (flagAtPop : Bool) : Bool :=
  !flagAtPop

/-- Whether a submitted non-recurring task's body ultimately runs, as a
function of the two flag reads the code performs on its path: the
`process_ready_queue` pop-time read and the wrapper's invocation-time
read. -/
def taskBodyRuns (flagAtPop flagAtRun : Bool) : Bool :=
  dispatchedFromReady flagAtPop && nonRecurringWrapperRuns flagAtRun

/-- A `ThreadPool` worker continuing from the top of its
`while (!st.stop_requested())` loop after stop has been requested: the
loop condition fails immediately and the worker exits, executing nothing
further.  Work items are identifiers. -/
def workerFromLoopTop (_q : List Nat) : List Nat :=
  []

/-- A `ThreadPool` worker woken inside `condition.wait` after stop has been
requested: if the FIFO is empty it returns; otherwise it pops and executes
exactly one item, then re-checks the outer loop condition
(`workerFromLoopTop`).  Returns the items it executes before exiting. -/
def workerFromWait : List Nat → List Nat
  | [] => []
  | w :: rest => w :: workerFromLoopTop rest

/-! ### Lock usage traces

The three lock domains of the system and, for each operation, the exact
sequence of acquire/release events it performs, read off the source. -/

/-- The three mutexes: `ready_mutex_`, `scheduled_mutex_`, and the
`ThreadPool`'s `queue_mutex`. -/
inductive LockId
  | ready
  | sched
  | pool
deriving DecidableEq

/-- A lock acquire or release event. -/
inductive LockEvent
  | acq (l : LockId)
  | rel (l : LockId)
deriving DecidableEq

/-- Update the list of currently held locks (innermost first) by one event. -/
def lockStep (held : List LockId) : LockEvent → List LockId
  | .acq l => l :: held
  | .rel l => held.erase l

/-- The set of locks held after a whole event sequence. -/
def heldFinal (held : List LockId) (tr : List LockEvent) : List LockId :=
  tr.foldl lockStep held

/-- The largest number of locks held simultaneously at any point while
executing the trace from the given held set. -/
def maxHeldAux (held : List LockId) : List LockEvent → Nat
  | [] => held.length
  | e :: rest => max held.length (maxHeldAux (lockStep held e) rest)

/-- The largest number of locks held simultaneously during a trace started
with no locks held. -/
def maxHeld (tr : List LockEvent) : Nat :=
  maxHeldAux [] tr

/-- `ThreadPool::enqueue`: take the pool FIFO lock, push, release, notify. -/
def enqueueTrace : List LockEvent :=
  [.acq .pool, .rel .pool]

/-- `ThreadPool::pending_tasks`: read the FIFO size under the pool lock. -/
def pending_tasksTrace : List LockEvent :=
  [.acq .pool, .rel .pool]

/-- `JobQueue::add_to_scheduled_queue`: push under the scheduled lock. -/
def add_to_scheduled_queueTrace : List LockEvent :=
  [.acq .sched, .rel .sched]

/-- `JobQueue::process_ready_queue` dispatching `n` tasks: the
`std::lock_guard` holds `ready_mutex_` for the whole loop, and each
dispatch calls `ThreadPool::enqueue`, which acquires the pool lock while
the ready lock is still held. -/
def process_ready_queueTrace (n : Nat) : List LockEvent :=
  LockEvent.acq .ready ::
    ((List.replicate n [LockEvent.acq .pool, LockEvent.rel .pool]).flatten ++
      [LockEvent.rel .ready])

/-- `JobQueue::add_to_ready_queue`: push under a scoped ready lock, then
call `process_ready_queue` (which re-locks). -/
def add_to_ready_queueTrace (n : Nat) : List LockEvent :=
  [LockEvent.acq .ready, LockEvent.rel .ready] ++ process_ready_queueTrace n

/-- One iteration of `JobQueue::scheduler_loop`: hold the scheduled lock
through the wait and the pop loop, explicitly `unlock()`, then call
`add_to_ready_queue` once per promoted task (`ks` gives, for each promoted
task, how many tasks its ready-queue drain dispatches). -/
def scheduler_loopIterTrace (ks : List Nat) : List LockEvent :=
  [LockEvent.acq .sched, LockEvent.rel .sched] ++
    (ks.map add_to_ready_queueTrace).flatten

/-- `JobQueue::get_stats`: lock and release each domain in turn. -/
def get_statsTrace : List LockEvent :=
  [.acq .ready, .rel .ready, .acq .sched, .rel .sched, .acq .pool, .rel .pool]

/-- The held-lock sets the amended concurrency claim allows: at most one
lock, or the pool lock acquired while the ready lock is held (the nesting
`process_ready_queue` actually performs). -/
def okHeld (held : List LockId) : Prop :=
  held.length ≤ 1 ∨ held = [LockId.pool, LockId.ready]

/-- Every held set reached while executing the trace from `held` satisfies
`okHeld`. -/
def allOk (held : List LockId) : List LockEvent → Prop
  | [] => True
  | e :: rest => okHeld (lockStep held e) ∧ allOk (lockStep held e) rest

/-! ### Concrete states used by witnesses and counterexamples -/

/-- A flag environment in which no cancellation flag is set. -/
def cFlags : Nat → Bool := fun _ => false

/-- The initial, empty job-queue state. -/
def s0 : JQState := ⟨[], [], []⟩

/-- A low-priority task due at time 0 (used against the scheduled queue). -/
def tLow0 : Task := ⟨2, .Low, 0, 0, false, 2⟩

/-- A high-priority task due at time 100. -/
def tHigh100 : Task := ⟨1, .High, 100, 0, false, 1⟩

/-- A low-priority task scheduled at time 0 (ready-queue example). -/
def tLow : Task := ⟨10, .Low, 0, 0, false, 0⟩

/-- A high-priority task scheduled at time 7 (ready-queue example). -/
def tHigh : Task := ⟨11, .High, 7, 0, false, 1⟩

/-- Sequential `submit` calls from a single caller thread: each element is
(now, func, priority, flag id), submitted in list order. -/
def submitSeq (flags : Nat → Bool) :
    List (Int × Nat × Priority × Nat) → JQState → JQState
  | [], s => s
  | x :: rest, s =>
    submitSeq flags rest (submit flags x.1 x.2.1 x.2.2.1 x.2.2.2 s)

/-- The task a sequential submission entry constructs. -/
def taskOfSub (x : Int × Nat × Priority × Nat) : Task :=
  ⟨x.2.1, x.2.2.1, x.1, 0, false, x.2.2.2⟩


/-! ### Helper lemmas -/

theorem TaskComparator_eq_true_iff (a b : Task) :
    TaskComparator a b = true ↔
      (a.priority.toNat < b.priority.toNat ∨
        (a.priority.toNat = b.priority.toNat ∧
          b.scheduled_time < a.scheduled_time)) := by
  unfold TaskComparator
  by_cases h : a.priority.toNat = b.priority.toNat
  · rw [if_neg (not_not_intro h)]
    simp only [decide_eq_true_eq, gt_iff_lt]
    constructor
    · intro hx
      exact Or.inr ⟨h, hx⟩
    · intro hx
      rcases hx with hx | hx
      · omega
      · exact hx.2
  · rw [if_pos h]
    simp only [decide_eq_true_eq]
    constructor
    · intro hx
      exact Or.inl hx
    · intro hx
      rcases hx with hx | hx
      · exact hx
      · exact absurd hx.1 h

theorem TaskComparator_eq_false_iff (a b : Task) :
    TaskComparator a b = false ↔
      (b.priority.toNat < a.priority.toNat ∨
        (a.priority.toNat = b.priority.toNat ∧
          a.scheduled_time ≤ b.scheduled_time)) := by
  rw [← Bool.not_eq_true, TaskComparator_eq_true_iff]
  constructor
  · intro h
    omega
  · intro h
    omega

theorem TaskComparator_irrefl (a : Task) : TaskComparator a a = false := by
  rw [TaskComparator_eq_false_iff]
  omega

theorem TaskComparator_asymm {a b : Task} (h : TaskComparator a b = true) :
    TaskComparator b a = false := by
  rw [TaskComparator_eq_true_iff] at h
  rw [TaskComparator_eq_false_iff]
  omega

theorem TaskComparator_notLT_trans {a b c : Task}
    (h1 : TaskComparator a b = false) (h2 : TaskComparator b c = false) :
    TaskComparator a c = false := by
  rw [TaskComparator_eq_false_iff] at h1 h2 ⊢
  omega

theorem selectMax_perm (l : List Task) (best : Task) :
    (best :: l).Perm ((selectMax best l).1 :: (selectMax best l).2) := by
  induction l generalizing best with
  | nil => simp [selectMax]
  | cons t rest ih =>
    cases h : TaskComparator best t with
    | true =>
      have h2 := List.Perm.swap (selectMax t rest).1 best (selectMax t rest).2
      simpa [selectMax, h] using ((ih t).cons best).trans h2
    | false =>
      have h1 := List.Perm.swap t best rest
      have h2 :=
        List.Perm.swap (selectMax best rest).1 t (selectMax best rest).2
      simpa [selectMax, h] using (h1.trans ((ih best).cons t)).trans h2

theorem selectMax_length (l : List Task) (best : Task) :
    (selectMax best l).2.length = l.length := by
  induction l generalizing best with
  | nil => simp [selectMax]
  | cons t rest ih =>
    cases h : TaskComparator best t with
    | true => simp [selectMax, h, ih]
    | false => simp [selectMax, h, ih]

theorem selectMax_max (l : List Task) (best : Task) :
    ∀ x ∈ best :: l, TaskComparator (selectMax best l).1 x = false := by
  induction l generalizing best with
  | nil =>
    intro x hx
    simp only [List.mem_singleton] at hx
    subst hx
    simp [selectMax, TaskComparator_irrefl]
  | cons t rest ih =>
    intro x hx
    cases h : TaskComparator best t with
    | true =>
      have hstep : (selectMax best (t :: rest)).1 = (selectMax t rest).1 := by
        simp [selectMax, h]
      rw [hstep]
      rcases List.mem_cons.mp hx with hb | hx'
      · rw [hb]
        have hmt : TaskComparator (selectMax t rest).1 t = false :=
          ih t t (List.mem_cons_self t rest)
        exact TaskComparator_notLT_trans hmt (TaskComparator_asymm h)
      · exact ih t x hx'
    | false =>
      have hstep : (selectMax best (t :: rest)).1 = (selectMax best rest).1 := by
        simp [selectMax, h]
      rw [hstep]
      rcases List.mem_cons.mp hx with hb | hx'
      · rw [hb]
        exact ih best best (List.mem_cons_self best rest)
      · rcases List.mem_cons.mp hx' with hb | hr
        · rw [hb]
          have hmb : TaskComparator (selectMax best rest).1 best = false :=
            ih best best (List.mem_cons_self best rest)
          exact TaskComparator_notLT_trans hmb h
        · exact ih best x (List.mem_cons.mpr (Or.inr hr))

theorem extractTop_perm {q : List Task} {t : Task} {rest : List Task}
    (h : extractTop q = some (t, rest)) : q.Perm (t :: rest) := by
  cases q with
  | nil => simp [extractTop] at h
  | cons a l =>
    simp only [extractTop, Option.some.injEq] at h
    have h1 : (selectMax a l).1 = t := by rw [h]
    have h2 : (selectMax a l).2 = rest := by rw [h]
    have := selectMax_perm l a
    rw [h1, h2] at this
    exact this

theorem extractTop_length {q : List Task} {t : Task} {rest : List Task}
    (h : extractTop q = some (t, rest)) : rest.length + 1 = q.length := by
  cases q with
  | nil => simp [extractTop] at h
  | cons a l =>
    simp only [extractTop, Option.some.injEq] at h
    have h2 : (selectMax a l).2 = rest := by rw [h]
    have := selectMax_length l a
    rw [h2] at this
    simp [this]

theorem extractTop_max {q : List Task} {t : Task} {rest : List Task}
    (h : extractTop q = some (t, rest)) :
    ∀ x ∈ q, TaskComparator t x = false := by
  cases q with
  | nil => simp [extractTop] at h
  | cons a l =>
    simp only [extractTop, Option.some.injEq] at h
    have h1 : (selectMax a l).1 = t := by rw [h]
    intro x hx
    rw [← h1]
    exact selectMax_max l a x hx

theorem drainAux_perm (flags : Nat → Bool) :
    ∀ fuel (q : List Task), q.length ≤ fuel →
      (drainAux flags fuel q).Perm
        (q.filter (fun t => !t.is_cancelled flags)) := by
  intro fuel
  induction fuel with
  | zero =>
    intro q hq
    have : q = [] := List.eq_nil_of_length_eq_zero (Nat.le_zero.mp hq)
    subst this
    simp [drainAux]
  | succ n ih =>
    intro q hq
    cases hq' : extractTop q with
    | none =>
      cases q with
      | nil => simp [drainAux, extractTop]
      | cons a l => simp [extractTop] at hq'
    | some tr =>
      obtain ⟨t, rest⟩ := tr
      have hperm : q.Perm (t :: rest) := extractTop_perm hq'
      have hlen : rest.length ≤ n := by
        have := extractTop_length hq'
        omega
      have hfil :
          (q.filter (fun u => !u.is_cancelled flags)).Perm
            ((t :: rest).filter (fun u => !u.is_cancelled flags)) :=
        hperm.filter _
      cases hc : t.is_cancelled flags with
      | true =>
        have hstep : drainAux flags (n + 1) q = drainAux flags n rest := by
          simp [drainAux, hq', hc]
        rw [hstep]
        have hfr : ((t :: rest).filter (fun u => !u.is_cancelled flags)) =
            rest.filter (fun u => !u.is_cancelled flags) := by
          simp [List.filter_cons, hc]
        rw [hfr] at hfil
        exact (ih rest hlen).trans hfil.symm
      | false =>
        have hstep : drainAux flags (n + 1) q = t :: drainAux flags n rest := by
          simp [drainAux, hq', hc]
        rw [hstep]
        have hfr : ((t :: rest).filter (fun u => !u.is_cancelled flags)) =
            t :: rest.filter (fun u => !u.is_cancelled flags) := by
          simp [List.filter_cons, hc]
        rw [hfr] at hfil
        exact ((ih rest hlen).cons t).trans hfil.symm

theorem process_ready_queue_perm (flags : Nat → Bool) (q : List Task) :
    (process_ready_queue flags q).Perm
      (q.filter (fun t => !t.is_cancelled flags)) :=
  drainAux_perm flags q.length q le_rfl

theorem heldFinal_append (h : List LockId) (t1 t2 : List LockEvent) :
    heldFinal h (t1 ++ t2) = heldFinal (heldFinal h t1) t2 := by
  simp [heldFinal, List.foldl_append]

theorem allOk_append {h : List LockId} {t1 t2 : List LockEvent}
    (h1 : allOk h t1) (h2 : allOk (heldFinal h t1) t2) :
    allOk h (t1 ++ t2) := by
  induction t1 generalizing h with
  | nil => simpa [heldFinal] using h2
  | cons e r ih =>
    obtain ⟨hok, hrest⟩ := h1
    exact ⟨hok, ih hrest h2⟩

theorem heldFinal_poolBlock (h : List LockId) :
    ∀ n, heldFinal h
      ((List.replicate n [LockEvent.acq .pool, LockEvent.rel .pool]).flatten)
        = h := by
  intro n
  induction n generalizing h with
  | zero => simp [heldFinal]
  | succ m ih =>
    rw [List.replicate_succ, List.flatten_cons]
    rw [heldFinal_append]
    rw [ih]
    simp [heldFinal, lockStep]

theorem allOk_readyBlock :
    ∀ n, allOk [LockId.ready]
      ((List.replicate n [LockEvent.acq .pool, LockEvent.rel .pool]).flatten ++
        [LockEvent.rel .ready]) := by
  intro n
  induction n with
  | zero => simp [allOk, lockStep, okHeld]
  | succ m ih =>
    have hflat :
        ((List.replicate (m + 1)
            [LockEvent.acq LockId.pool, LockEvent.rel LockId.pool]).flatten ++
          [LockEvent.rel LockId.ready]) =
        LockEvent.acq LockId.pool :: LockEvent.rel LockId.pool ::
          ((List.replicate m
              [LockEvent.acq LockId.pool, LockEvent.rel LockId.pool]).flatten ++
            [LockEvent.rel LockId.ready]) := by
      simp [List.replicate_succ]
    rw [hflat]
    exact ⟨Or.inr rfl, Or.inl (by simp [lockStep]), ih⟩

theorem allOk_process_ready (n : Nat) :
    allOk [] (process_ready_queueTrace n) := by
  exact ⟨Or.inl (by simp [lockStep]), allOk_readyBlock n⟩

theorem heldFinal_process_ready (n : Nat) :
    heldFinal [] (process_ready_queueTrace n) = [] := by
  unfold process_ready_queueTrace
  have h1 : heldFinal [] [LockEvent.acq LockId.ready] = [LockId.ready] := by
    simp [heldFinal, lockStep]
  show heldFinal [] (LockEvent.acq LockId.ready ::
    ((List.replicate n [LockEvent.acq .pool, LockEvent.rel .pool]).flatten ++
      [LockEvent.rel .ready])) = []
  have : heldFinal [] (LockEvent.acq LockId.ready ::
      ((List.replicate n [LockEvent.acq .pool, LockEvent.rel .pool]).flatten ++
        [LockEvent.rel .ready])) =
      heldFinal [LockId.ready]
        ((List.replicate n [LockEvent.acq .pool, LockEvent.rel .pool]).flatten ++
          [LockEvent.rel .ready]) := by
    simp [heldFinal, lockStep]
  rw [this, heldFinal_append, heldFinal_poolBlock]
  simp [heldFinal, lockStep]

theorem allOk_add_to_ready (n : Nat) :
    allOk [] (add_to_ready_queueTrace n) := by
  unfold add_to_ready_queueTrace
  refine allOk_append ?_ ?_
  · refine ⟨Or.inl (by simp [lockStep]), Or.inl (by simp [lockStep]), trivial⟩
  · have : heldFinal [] [LockEvent.acq LockId.ready, LockEvent.rel LockId.ready]
        = [] := by
      simp [heldFinal, lockStep]
    rw [this]
    exact allOk_process_ready n

theorem heldFinal_add_to_ready (n : Nat) :
    heldFinal [] (add_to_ready_queueTrace n) = [] := by
  unfold add_to_ready_queueTrace
  rw [heldFinal_append]
  have : heldFinal [] [LockEvent.acq LockId.ready, LockEvent.rel LockId.ready]
      = [] := by
    simp [heldFinal, lockStep]
  rw [this]
  exact heldFinal_process_ready n

theorem allOk_flatten_addReady (ks : List Nat) :
    allOk [] ((ks.map add_to_ready_queueTrace).flatten) := by
  induction ks with
  | nil => exact trivial
  | cons k rest ih =>
    rw [List.map_cons, List.flatten_cons]
    refine allOk_append (allOk_add_to_ready k) ?_
    rw [heldFinal_add_to_ready]
    exact ih

theorem allOk_scheduler_iter (ks : List Nat) :
    allOk [] (scheduler_loopIterTrace ks) := by
  unfold scheduler_loopIterTrace
  refine allOk_append ?_ ?_
  · refine ⟨Or.inl (by simp [lockStep]), Or.inl (by simp [lockStep]), trivial⟩
  · have : heldFinal [] [LockEvent.acq LockId.sched, LockEvent.rel LockId.sched]
        = [] := by
      simp [heldFinal, lockStep]
    rw [this]
    exact allOk_flatten_addReady ks

theorem process_ready_queue_singleton (flags : Nat → Bool) (t : Task)
    (h : t.is_cancelled flags = false) :
    process_ready_queue flags [t] = [t] := by
  simp [process_ready_queue, drainAux, extractTop, selectMax, h]

theorem submitSeq_fifo (subs : List (Int × Nat × Priority × Nat)) :
    ∀ s : JQState, s.ready = [] →
      (submitSeq cFlags subs s).fifo = s.fifo ++ subs.map taskOfSub ∧
      (submitSeq cFlags subs s).ready = [] ∧
      (submitSeq cFlags subs s).sched = s.sched := by
  induction subs with
  | nil =>
    intro s h
    exact ⟨by simp [submitSeq], by simp [submitSeq, h], by simp [submitSeq]⟩
  | cons x rest ih =>
    intro s h
    have hsub : submit cFlags x.1 x.2.1 x.2.2.1 x.2.2.2 s =
        { s with ready := [], fifo := s.fifo ++ [taskOfSub x] } := by
      unfold submit add_to_ready_queue
      rw [h]
      rw [process_ready_queue_singleton cFlags
        ⟨x.2.1, x.2.2.1, x.1, 0, false, x.2.2.2⟩ rfl]
      rfl
    rw [submitSeq, hsub]
    obtain ⟨h1, h2, h3⟩ :=
      ih { s with ready := [], fifo := s.fifo ++ [taskOfSub x] } rfl
    refine ⟨?_, h2, h3⟩
    rw [h1]
    simp [List.map_cons]

/-! ### Claim theorems -/

/-- Claim C1, counterexample: submitting three non-delayed tasks with
priorities Low, High, Medium (func ids 0, 1, 2) in that order hands them
to the worker pool FIFO — hence to a single worker — in submission order
0, 1, 2, not in the claimed dispatch order High, Medium, Low (1, 2, 0). -/
theorem C1_counterexample :
    ((submitSeq cFlags
      [(0, 0, Priority.Low, 0), (1, 1, Priority.High, 1),
        (2, 2, Priority.Medium, 2)] s0).fifo.map Task.func) = [0, 1, 2] ∧
    ((submitSeq cFlags
      [(0, 0, Priority.Low, 0), (1, 1, Priority.High, 1),
        (2, 2, Priority.Medium, 2)] s0).fifo.map Task.func) ≠ [1, 2, 0] := by
  decide

/-- Claim C1, amended: because every `submit` call synchronously drains
the ReadyQueue it has just pushed into, tasks submitted sequentially with
no cancellations are handed to the WorkerPool FIFO in submission order
regardless of priority (descending-priority dispatch applies only to
tasks simultaneously present in the ReadyQueue during one drain). -/
theorem C1_amended_dispatch (subs : List (Int × Nat × Priority × Nat))
    (s : JQState) (h : s.ready = []) :
    (submitSeq cFlags subs s).fifo = s.fifo ++ subs.map taskOfSub ∧
    (submitSeq cFlags subs s).ready = [] :=
  ⟨(submitSeq_fifo subs s h).1, (submitSeq_fifo subs s h).2.1⟩

/-- Claim C1, witness for the amended theorem at the Low/High/Medium
scenario from an empty queue. -/
theorem C1_amended_witness :
    (submitSeq cFlags
      [(0, 0, Priority.Low, 0), (1, 1, Priority.High, 1),
        (2, 2, Priority.Medium, 2)] s0).fifo =
      s0.fifo ++
        ([(0, 0, Priority.Low, 0), (1, 1, Priority.High, 1),
          (2, 2, Priority.Medium, 2)] :
            List (Int × Nat × Priority × Nat)).map taskOfSub ∧
    (submitSeq cFlags
      [(0, 0, Priority.Low, 0), (1, 1, Priority.High, 1),
        (2, 2, Priority.Medium, 2)] s0).ready = [] :=
  C1_amended_dispatch _ s0 rfl

/-- Claim C2, code evaluated at the failing input: the scheduled queue is
ordered by the priority-first `TaskComparator`, not by `scheduled_time`.
With a High-priority task due at t = 100 and a Low-priority task due at
t = 0 in the queue, a scheduler wake at now = 0 promotes nothing: the
not-yet-due High task sits on top and hides the due, non-cancelled Low
task, so the promotion loop does not pop the set of all due tasks. -/
theorem C2_scheduled_queue_not_time_ordered :
    promote_due cFlags 0 [tHigh100, tLow0] = ([], [tHigh100, tLow0]) ∧
    tLow0.is_ready 0 = true ∧
    tLow0.is_cancelled cFlags = false ∧
    tLow0.scheduled_time < tHigh100.scheduled_time ∧
    TaskComparator tLow0 tHigh100 = true := by
  decide

/-- Claim C3, counterexample: `process_ready_queue` holds `ready_mutex_`
for its whole drain loop while each dispatch calls `ThreadPool::enqueue`,
which acquires the pool's FIFO lock — so a drain dispatching one task
holds two of the three locks simultaneously. -/
theorem C3_counterexample :
    ¬ (maxHeld (process_ready_queueTrace 1) ≤ 1) := by
  decide

/-- Claim C3, amended: along every operation's lock trace, the held set is
always at most one lock except inside `process_ready_queue`, where the
pool FIFO lock is acquired while the ReadyQueue lock is held (and only in
that nesting order); the ScheduledQueue lock is never held together with
any other lock, and the scheduler releases it before `add_to_ready_queue`
re-locks during promotion. -/
theorem C3_amended_lock_discipline (n : Nat) (ks : List Nat) :
    allOk [] enqueueTrace ∧
    allOk [] pending_tasksTrace ∧
    allOk [] add_to_scheduled_queueTrace ∧
    allOk [] get_statsTrace ∧
    allOk [] (process_ready_queueTrace n) ∧
    allOk [] (add_to_ready_queueTrace n) ∧
    allOk [] (scheduler_loopIterTrace ks) ∧
    maxHeld (process_ready_queueTrace 1) = 2 := by
  refine ⟨?_, ?_, ?_, ?_, allOk_process_ready n, allOk_add_to_ready n,
    allOk_scheduler_iter ks, by decide⟩
  · exact ⟨Or.inl (by simp [lockStep]), Or.inl (by simp [lockStep]), trivial⟩
  · exact ⟨Or.inl (by simp [lockStep]), Or.inl (by simp [lockStep]), trivial⟩
  · exact ⟨Or.inl (by simp [lockStep]), Or.inl (by simp [lockStep]), trivial⟩
  · exact ⟨Or.inl (by simp [lockStep]), Or.inl (by simp [lockStep]),
      Or.inl (by simp [lockStep]), Or.inl (by simp [lockStep]),
      Or.inl (by simp [lockStep]), Or.inl (by simp [lockStep]), trivial⟩

/-- Claim C3, witness for the amended theorem at a concrete trace size. -/
theorem C3_amended_witness :
    allOk [] enqueueTrace ∧
    allOk [] pending_tasksTrace ∧
    allOk [] add_to_scheduled_queueTrace ∧
    allOk [] get_statsTrace ∧
    allOk [] (process_ready_queueTrace 2) ∧
    allOk [] (add_to_ready_queueTrace 2) ∧
    allOk [] (scheduler_loopIterTrace [1, 2]) ∧
    maxHeld (process_ready_queueTrace 1) = 2 :=
  C3_amended_lock_discipline 2 [1, 2]

/-- Claim C4, counterexample: whether a task's body runs is not determined
by the pop-time reads alone — a task dispatched with a clear flag runs
when the flag is still clear at wrapper invocation but does not run when
the flag has been set in between, so the wrapper's read is a further
point where the flag decides whether the body runs. -/
theorem C4_counterexample :
    taskBodyRuns false false = true ∧
    taskBodyRuns false true = false ∧
    ¬ (∀ fp f1 f2 : Bool, taskBodyRuns fp f1 = taskBodyRuns fp f2) := by
  decide

/-- Claim C4, amended: the cancellation flag is consulted at the two pop
points (ReadyQueue dispatch, ScheduledQueue promotion) and additionally
inside the worker-side wrapper immediately before invoking the body —
and, for recurring tasks, once more after the body completes to decide
rescheduling.  The body runs iff the flag was clear both at ReadyQueue
pop and at wrapper invocation; the recurring chain advances iff the flag
is also clear after completion. -/
theorem C4_amended_flag_reads (fp frun fa : Bool) (now : Int) (t : Task)
    (s : JQState) :
    (taskBodyRuns fp frun = true ↔ (fp = false ∧ frun = false)) ∧
    ((recurringWrapper now t frun BodyOutcome.ok fa s).2.sched ≠ s.sched ↔
      (frun = false ∧ fa = false)) := by
  have hne : ∀ (x : Task) (l : List Task), x :: l ≠ l := by
    intro x l hxl
    have := congrArg List.length hxl
    simp at this
  constructor
  · cases fp <;> cases frun <;> simp [taskBodyRuns, dispatchedFromReady,
      nonRecurringWrapperRuns]
  · cases frun <;> cases fa <;>
      simp [recurringWrapper, add_to_scheduled_queue, hne]

/-- Claim C5, code evaluated at the failing input: with stop requested and
two work items [0, 1] in the pool FIFO, a single worker woken inside
`condition.wait` executes only item 0 and then exits at the outer
`while (!st.stop_requested())` check, dropping item 1 (a worker re-entering
at the loop top executes nothing at all) — the FIFO is not drained. -/
theorem C5_worker_drops_queued_work :
    workerFromWait [0, 1] = [0] ∧
    workerFromWait [0, 1] ≠ [0, 1] ∧
    workerFromLoopTop [0, 1] = [] := by
  decide

/-- Claim C6, code evaluated at the failing input: `submit_delayed` with a
negative delay (-5) and `submit_recurring` with a zero interval perform no
validation whatsoever — each silently constructs its task and pushes it
into the scheduled queue, returning a normal handle; no InvalidArgument
rejection path exists in the code. -/
theorem C6_no_argument_validation :
    (submit_delayed 100 (-5) 7 Priority.Medium 3 s0).sched =
      [⟨7, Priority.Medium, 95, 0, false, 3⟩] ∧
    (submit_recurring 100 0 8 Priority.Medium 4 s0).sched =
      [⟨8, Priority.Medium, 100, 0, true, 4⟩] := by
  decide

/-- Claim C7 (confirmed): when a recurring task's body completes normally
and the shared flag is still clear, the wrapper constructs a brand-new
Task with `scheduled_time = now() + recurring_interval` carrying the same
body, priority, interval and shared flag cell, and pushes it into the
scheduled queue; if the flag is set afterwards, or the body raises, or
the flag was set before the body, no new Task is pushed. -/
theorem C7_recurring_reschedule (now : Int) (t : Task) (fa : Bool)
    (b : BodyOutcome) (s : JQState) :
    recurringWrapper now t false BodyOutcome.ok false s =
      (true, add_to_scheduled_queue (nextTask now t) s) ∧
    (nextTask now t).scheduled_time = now + t.recurring_interval ∧
    (nextTask now t).func = t.func ∧
    (nextTask now t).priority = t.priority ∧
    (nextTask now t).recurring_interval = t.recurring_interval ∧
    (nextTask now t).is_recurring = true ∧
    (nextTask now t).cancelled = t.cancelled ∧
    recurringWrapper now t false BodyOutcome.ok true s = (true, s) ∧
    recurringWrapper now t false BodyOutcome.raises fa s = (true, s) ∧
    (recurringWrapper now t true b fa s).2 = s :=
  ⟨rfl, rfl, rfl, rfl, rfl, rfl, rfl, rfl, rfl, rfl⟩

/-- Claim C8 (confirmed): `submit` constructs a Task with
`scheduled_time = now()`, pushes it into the ReadyQueue and drains the
queue to empty before returning: the scheduled queue is untouched, the
pool FIFO is extended by exactly the non-cancelled tasks of the drained
queue (as a multiset), and every dispatched task is non-cancelled. -/
theorem C8_submit_drains_ready (flags : Nat → Bool) (now : Int) (f : Nat)
    (p : Priority) (fid : Nat) (s : JQState) :
    (submit flags now f p fid s).ready = [] ∧
    (submit flags now f p fid s).sched = s.sched ∧
    (submit flags now f p fid s).fifo =
      s.fifo ++
        process_ready_queue flags (⟨f, p, now, 0, false, fid⟩ :: s.ready) ∧
    (process_ready_queue flags
        (⟨f, p, now, 0, false, fid⟩ :: s.ready)).Perm
      ((⟨f, p, now, 0, false, fid⟩ :: s.ready).filter
        (fun t => !t.is_cancelled flags)) ∧
    ∀ t ∈ process_ready_queue flags (⟨f, p, now, 0, false, fid⟩ :: s.ready),
      t.is_cancelled flags = false := by
  refine ⟨rfl, rfl, rfl, process_ready_queue_perm flags _, ?_⟩
  intro t ht
  have hmem := (process_ready_queue_perm flags
    (⟨f, p, now, 0, false, fid⟩ :: s.ready)).mem_iff.mp ht
  have := List.mem_filter.mp hmem
  simpa using this.2

/-- Claim C9 (confirmed): `TaskComparator` orders tasks primarily by
priority value (so the popped maximum has the highest priority) and,
within equal priority, by `scheduled_time` ascending; consequently the
task popped first from a non-empty ready queue has maximal priority and,
among tasks of its priority, a minimal `scheduled_time`. -/
theorem C9_comparator_dispatch_order (q : List Task) (t : Task)
    (rest : List Task) (h : extractTop q = some (t, rest)) :
    (∀ a b : Task, TaskComparator a b = true ↔
      (a.priority.toNat < b.priority.toNat ∨
        (a.priority.toNat = b.priority.toNat ∧
          b.scheduled_time < a.scheduled_time))) ∧
    ∀ u ∈ q, u.priority.toNat ≤ t.priority.toNat ∧
      (u.priority = t.priority → t.scheduled_time ≤ u.scheduled_time) := by
  refine ⟨TaskComparator_eq_true_iff, ?_⟩
  intro u hu
  have hf : TaskComparator t u = false := extractTop_max h u hu
  rw [TaskComparator_eq_false_iff] at hf
  refine ⟨by omega, ?_⟩
  intro he
  have hpn : u.priority.toNat = t.priority.toNat := by rw [he]
  omega

/-- Claim C9, witness: popping from the queue [tLow, tHigh] yields tHigh,
and the order conclusion instantiated at the remaining element tLow. -/
theorem C9_witness :
    tLow.priority.toNat ≤ tHigh.priority.toNat ∧
    (tLow.priority = tHigh.priority →
      tHigh.scheduled_time ≤ tLow.scheduled_time) :=
  (C9_comparator_dispatch_order [tLow, tHigh] tHigh [tLow] (by decide)).2
    tLow (by decide)

/-- Claim C10 (confirmed): both enqueued wrappers re-read the shared flag
immediately before invoking the body, so a task cancelled after dispatch
into the pool FIFO but before a worker picks it up never runs: the
non-recurring wrapper skips the body when the flag is set at invocation
even though it was clear at pop time, and the recurring wrapper does the
same. -/
theorem C10_wrapper_rechecks_before_run (now : Int) (t : Task)
    (b : BodyOutcome) (fa : Bool) (s : JQState) :
    nonRecurringWrapperRuns true = false ∧
    dispatchedFromReady false = true ∧
    taskBodyRuns false true = false ∧
    (recurringWrapper now t true b fa s).1 = false :=
  ⟨rfl, rfl, rfl, rfl⟩

end JobQueueSpec
